import Mathlib

/-!
Verification of the room/session coordination server (`src/server.js`, plus the
second variant of the same server in `src/unnamed/part_000`).

The development shallowly embeds the mutable in-process registries of the
server (`rooms`, `users`, `messages`, `activeCalls`, `screenShareRequests`,
`userPlaylists`, `connectionMonitor`) as association lists over `Nat` socket
ids and `String` names, and each socket event handler as a pure function on
those states.  Timestamps are naturals counting milliseconds, as in
`Date.now()`.
-/

namespace AssocMap

/-- Lookup in an association list, the embedding of `Map.get`:
the value at the first matching key, or `none`. -/
def mget {κ ν : Type} [DecidableEq κ] : List (κ × ν) → κ → Option ν
  | [], _ => none
  | (k, v) :: m, q => if q = k then some v else mget m q

/-- Update in an association list, the embedding of `Map.set`: any previous
binding of the key is dropped and the new binding is recorded. -/
def mset {κ ν : Type} [DecidableEq κ] (k : κ) (v : ν) (m : List (κ × ν)) :
    List (κ × ν) :=
  (k, v) :: m.filter (fun p => p.1 ≠ k)

/-- Deletion from an association list, the embedding of `Map.delete`. -/
def mdel {κ ν : Type} [DecidableEq κ] (k : κ) (m : List (κ × ν)) :
    List (κ × ν) :=
  m.filter (fun p => p.1 ≠ k)

end AssocMap

namespace Chat

/-- A chat message, mirroring the object literal built in the `message`
handler of `src/server.js` (lines 419-436): identity, author name, free-form
text or file reference, the `edited` / `deleted` soft-mutation flags, the
per-participant reaction map and the seen set. -/
structure Msg where
  id : String
  userName : String
  userPhoto : String
  userColor : String
  text : String
  type : String
  fileUrl : String
  fileName : String
  fileSize : Nat
  time : String
  edited : Bool
  editTime : Option String
  deleted : Bool
  deletedTime : Option String
  reactions : List (String × String)
  seenBy : List String
  deriving Repr, DecidableEq

/-- The message constructed by the `message` handler (`src/server.js` lines
419-436): fresh id, the caller as author, `edited`/`deleted` cleared, an empty
reaction map and a seen set holding exactly the author's name. -/
def mkMessage (idStr author photo color text ty fileUrl fileName : String)
    (fileSize : Nat) (timeStr : String) : Msg :=
  { id := idStr
    userName := author
    userPhoto := photo
    userColor := color
    text := text
    type := ty
    fileUrl := fileUrl
    fileName := fileName
    fileSize := fileSize
    time := timeStr
    edited := false
    editTime := none
    deleted := false
    deletedTime := none
    reactions := []
    seenBy := [author] }

/-- The `message` handler's effect on a room's log (`src/server.js` lines
438-445): push the new message, then cap the log at the most recent 100
entries (`roomMessages.slice(-100)`). -/
def postMessage (log : List Msg) (m : Msg) : List Msg :=
  let l := log ++ [m]
  if l.length > 100 then l.drop (l.length - 100) else l

/-- The `edit-message` handler (`src/server.js` lines 455-477): find the first
message with the given id (`findIndex`); if it exists and its author equals
the caller's name, set the new text, the `edited` flag and the edit time;
otherwise leave the log unchanged. -/
def editMessage (log : List Msg) (messageId newText caller editTimeStr : String) :
    List Msg :=
  match log with
  | [] => []
  | m :: ms =>
    if m.id == messageId then
      if m.userName == caller then
        { m with text := newText, edited := true, editTime := some editTimeStr } :: ms
      else
        m :: ms
    else
      m :: editMessage ms messageId newText caller editTimeStr

/-- The `delete-message` handler (`src/server.js` lines 480-501): find the
first message with the given id; if it exists and its author equals the
caller's name, set the `deleted` soft-delete flag and the delete time;
otherwise leave the log unchanged. -/
def deleteMessage (log : List Msg) (messageId caller deletedTimeStr : String) :
    List Msg :=
  match log with
  | [] => []
  | m :: ms =>
    if m.id == messageId then
      if m.userName == caller then
        { m with deleted := true, deletedTime := some deletedTimeStr } :: ms
      else
        m :: ms
    else
      m :: deleteMessage ms messageId caller deletedTimeStr

/-- Common shape of `edit-message` and `delete-message`: update the first
message carrying the wanted id with `f`, when it passes the guard `g`;
stop at the first id match either way. -/
def guardedUpdateFirst (messageId : String) (g : Msg → Bool) (f : Msg → Msg) :
    List Msg → List Msg
  | [] => []
  | m :: ms =>
    if m.id == messageId then
      if g m then f m :: ms else m :: ms
    else
      m :: guardedUpdateFirst messageId g f ms

/-- Reaction-map toggle at the heart of the `message-reaction` handler
(`src/server.js` lines 517-523): if the caller's currently recorded symbol
equals the submitted one, delete the caller's entry; otherwise set the
caller's entry to the submitted symbol.  JavaScript object deletion removes
the key and re-assignment appends it, so the map is an association list keyed
by participant name. -/
def toggleReaction (user reaction : String) (rs : List (String × String)) :
    List (String × String) :=
  if rs.lookup user = some reaction then
    rs.filter (fun p => p.1 ≠ user)
  else
    (rs.filter (fun p => p.1 ≠ user)) ++ [(user, reaction)]

/-- The `message-reaction` handler on the room log (`src/server.js` lines
504-533): find the first message with the given id and toggle the caller's
reaction on it; a missing id is a silent no-op. -/
def messageReaction (log : List Msg) (messageId user reaction : String) : List Msg :=
  match log with
  | [] => []
  | m :: ms =>
    if m.id == messageId then
      { m with reactions := toggleReaction user reaction m.reactions } :: ms
    else
      m :: messageReaction ms messageId user reaction

/-- The `message-seen` handler (`src/server.js` lines 536-555): find the first
message with the given id; if the caller's name is not yet in its seen set,
append it; otherwise (or when the id is missing) change nothing. -/
def messageSeen (log : List Msg) (messageId user : String) : List Msg :=
  match log with
  | [] => []
  | m :: ms =>
    if m.id == messageId then
      if user ∈ m.seenBy then m :: ms
      else { m with seenBy := m.seenBy ++ [user] } :: ms
    else
      m :: messageSeen ms messageId user

/-- Extensional equality of reaction maps: the two association lists record
the same symbol (or none) for every participant. -/
def MapEqv (rs₁ rs₂ : List (String × String)) : Prop :=
  ∀ k, rs₁.lookup k = rs₂.lookup k

end Chat

namespace Liveness

/-- Per-connection view of the liveness machinery of `src/server.js`: the
`connectionMonitor` record timestamp (`lastPing`) and presence, the
transport-level `socket.connected` flag, and whether the health check ever
called `socket.disconnect(true)` on this connection. -/
structure ConnState where
  lastPing : Nat
  present : Bool
  connected : Bool
  forced : Bool
  deriving Repr, DecidableEq

/-- Timed events touching one connection record: the 10-second server-side
ping emitter (`src/server.js` lines 168-178), the `pong` acknowledgment
handler (lines 180-186), and one iteration of the 20-second health-check
sweep of `startConnectionHealthCheck` (lines 107-124). -/
inductive Event where
  | probe (t : Nat)
  | pong (t : Nat)
  | sweep (t : Nat)
  deriving Repr, DecidableEq

/-- State recorded when a socket connects (`src/server.js` lines 155-160). -/
def connect (t : Nat) : ConnState :=
  { lastPing := t, present := true, connected := true, forced := false }

/-- One event on a connection record.  The probe refreshes `lastPing` whenever
the socket is still connected and a record exists; the pong handler refreshes
it whenever a record exists; the sweep forcibly disconnects and deletes any
record older than 40000 ms. -/
def step (s : ConnState) : Event → ConnState
  | .probe t =>
    if s.connected ∧ s.present then { s with lastPing := t } else s
  | .pong t =>
    if s.present then { s with lastPing := t } else s
  | .sweep t =>
    if s.present ∧ 40000 < t - s.lastPing then
      { s with present := false, connected := false,
               forced := s.forced || s.connected }
    else s

/-- Run a timed event sequence on a connection record. -/
def run (s : ConnState) (es : List Event) : ConnState :=
  es.foldl step s

/-- Timeline of a connected client that never sends a `pong`: the server
probes every 10 s from connection at time 0, and health-check sweeps fire at
15 s offsets every 20 s.  No acknowledgment ever arrives. -/
def noAckTrace : List Event :=
  [.probe 10000, .sweep 15000, .probe 20000, .probe 30000, .sweep 35000,
   .probe 40000, .probe 50000, .sweep 55000, .probe 60000, .probe 70000,
   .sweep 75000]

end Liveness

namespace Calls

/-- A call record as built by the `start-call` handler (`src/server.js`
lines 786-795), indexed in `activeCalls` under both endpoints. -/
structure CallRec where
  callerSocketId : Nat
  targetSocketId : Nat
  callType : String
  roomCode : String
  status : String
  deriving Repr, DecidableEq

/-- The global `activeCalls` map: socket id to call record. -/
abbrev CallIndex := List (Nat × CallRec)

/-- Call-relay events.  `startCall` is the found-target branch of the
`start-call` handler; `endCall` carries the payload `targetSocketId`;
`rejectCall` carries the payload `callerSocketId` (used only for the
notification); `disconnect` is the call-teardown part of the disconnect
handler. -/
inductive CallEvent where
  | startCall (caller target : Nat) (callType roomCode : String)
  | endCall (actor : Nat) (targetSocketId : Option Nat)
  | rejectCall (actor : Nat) (callerSocketId : Nat)
  | disconnect (actor : Nat)
  deriving Repr, DecidableEq

open AssocMap in
/-- One event on the `activeCalls` index, following `src/server.js`:
`start-call` (lines 783-805) records the call under both socket ids;
`reject-call` (lines 859-876) and the found-record branch of `end-call`
(lines 878-894) delete the record's two index entries; the fallback branch of
`end-call` (lines 895-903) deletes the actor's id and the payload target id;
`disconnect` (lines 916-928) deletes the actor and the record's other
party. -/
def step (st : CallIndex) : CallEvent → CallIndex
  | .startCall caller target ty rc =>
    let callData : CallRec :=
      { callerSocketId := caller, targetSocketId := target,
        callType := ty, roomCode := rc, status := "ringing" }
    mset target callData (mset caller callData st)
  | .endCall actor tgt =>
    match mget st actor with
    | some callData =>
      mdel callData.targetSocketId (mdel callData.callerSocketId st)
    | none =>
      match tgt with
      | some t => mdel t (mdel actor st)
      | none => st
  | .rejectCall actor _ =>
    match mget st actor with
    | some callData =>
      mdel callData.targetSocketId (mdel callData.callerSocketId st)
    | none => st
  | .disconnect actor =>
    match mget st actor with
    | some callData =>
      let otherPartyId :=
        if callData.callerSocketId = actor then callData.targetSocketId
        else callData.callerSocketId
      mdel actor (mdel otherPartyId st)
    | none => st

/-- Run a call-event trace from the empty `activeCalls` map. -/
def run (tr : List CallEvent) : CallIndex :=
  tr.foldl step []

/-- Trace restriction for the amended invariant: `start-call` only fires
between two distinct parties neither of which holds a call record, and
`end-call` only fires from a socket holding a record (its found-record
branch). -/
def okEvent (st : CallIndex) : CallEvent → Bool
  | .startCall caller target _ _ =>
    (AssocMap.mget st caller).isNone && (AssocMap.mget st target).isNone
      && caller != target
  | .endCall actor _ => (AssocMap.mget st actor).isSome
  | .rejectCall _ _ => true
  | .disconnect _ => true

/-- A whole trace satisfies the restriction step by step. -/
def okFrom (st : CallIndex) : List CallEvent → Bool
  | [] => true
  | e :: es => okEvent st e && okFrom (step st e) es

/-- The paired-index invariant: every entry is keyed by one of its record's
two endpoints, the endpoints are distinct, and both endpoints' index entries
hold that same record (no half-call state). -/
def Paired (st : CallIndex) : Prop :=
  ∀ p ∈ st,
    (p.2.callerSocketId = p.1 ∨ p.2.targetSocketId = p.1)
    ∧ p.2.callerSocketId ≠ p.2.targetSocketId
    ∧ AssocMap.mget st p.2.callerSocketId = some p.2
    ∧ AssocMap.mget st p.2.targetSocketId = some p.2

/-- A ringing call between sockets 1 and 2, then an `end-call` from an
uninvolved socket 3 naming socket 1 as payload target. -/
def strandTrace : List CallEvent :=
  [.startCall 1 2 "video" "ROOM01", .endCall 3 (some 1)]

end Calls

namespace RoomSweep

/-- One room as seen by the periodic cleanup of `src/unnamed/part_000`
(lines 974-996): its creation time and member socket ids.  `emptySince` is a
ghost field recording when membership last dropped to zero (`none` while the
room is occupied, or if it has never emptied); the server itself keeps no
such field, which is exactly what the sweep claim turns on. -/
structure RoomG where
  createdAt : Nat
  users : List Nat
  emptySince : Option Nat
  deriving Repr, DecidableEq

/-- The slice of server state the hourly-backstop sweep touches: the room
(if it still exists) and whether the `messages` map still holds its log. -/
structure SweepSt where
  room : Option RoomG
  msgsPresent : Bool
  deriving Repr, DecidableEq

/-- Timed membership and sweep events for one room. -/
inductive REvent where
  | join (t : Nat) (id : Nat)
  | leave (t : Nat) (id : Nat)
  | sweep (t : Nat)
  deriving Repr, DecidableEq

/-- One event.  Join and leave maintain membership plus the ghost
`emptySince` timestamp; the sweep is the cleanup loop of
`src/unnamed/part_000` lines 988-994: it deletes the room and its message log
iff the room is empty now and `now - room.createdAt` exceeds one hour
(3600000 ms). -/
def stepRoom (st : SweepSt) : REvent → SweepSt
  | .join _ id =>
    match st.room with
    | some r =>
      { st with room := some { r with users := id :: r.users, emptySince := none } }
    | none => st
  | .leave t id =>
    match st.room with
    | some r =>
      let rest := r.users.filter (fun x => x ≠ id)
      { st with room := some { r with
          users := rest,
          emptySince :=
            if rest = [] ∧ r.users ≠ [] then some t else r.emptySince } }
    | none => st
  | .sweep t =>
    match st.room with
    | some r =>
      if r.users = [] ∧ 3600000 < t - r.createdAt then
        { room := none, msgsPresent := false }
      else st
    | none => st

/-- Run a timed room trace. -/
def runRoom (st : SweepSt) (es : List REvent) : SweepSt :=
  es.foldl stepRoom st

/-- A room created at time 0 whose single member (socket 7) stays for just
over an hour and leaves at 3690000 ms; a cleanup sweep follows 10 s later. -/
def oldRoomSt : SweepSt :=
  { room := some { createdAt := 0, users := [7], emptySince := none },
    msgsPresent := true }

end RoomSweep

namespace Registry

/-- A participant record as built by `create-room` and `join-room`
(`src/server.js` lines 211-218 and 267-274), restricted to the fields the
registry claims depend on. -/
structure UserR where
  id : Nat
  userName : String
  isOwner : Bool
  deriving Repr, DecidableEq

/-- A room object (`src/server.js` lines 198-209), restricted to the fields
the registry claims depend on; `users` is the room's membership map. -/
structure Room where
  code : String
  name : String
  password : Option String
  owner : Nat
  users : List (Nat × UserR)
  deriving Repr, DecidableEq

/-- The global `rooms` and `messages` maps, keyed by room code. -/
structure RegSt where
  rooms : List (String × Room)
  messages : List (String × List Chat.Msg)
  deriving Repr, DecidableEq

/-- The grace-period deletion timer body scheduled by the disconnect handler
when a room empties (`src/server.js` lines 952-960, identical in
`src/unnamed/part_000` lines 834-843): re-check membership and delete the
room together with its message log only if it is still empty. -/
def graceFire (code : String) (st : RegSt) : RegSt :=
  match AssocMap.mget st.rooms code with
  | some r =>
    if r.users = [] then
      { rooms := AssocMap.mdel code st.rooms,
        messages := AssocMap.mdel code st.messages }
    else st
  | none => st

/-- The `roomCode.toUpperCase()` normalization of the `join-room` handler,
character-wise over the code points (room codes are ASCII alphanumerics). -/
def jsToUpperCase (s : String) : String :=
  ⟨s.data.map Char.toUpper⟩

/-- The `join-room` handler (`src/server.js` lines 252-309): look the room up
under the uppercased code, reject a wrong password, and otherwise add the
joining socket to the room's membership (owner flag iff the room's recorded
owner is this socket).  Error paths leave the state unchanged. -/
def joinRoom (socketId : Nat) (userName roomCode pw : String) (st : RegSt) :
    RegSt :=
  match AssocMap.mget st.rooms (jsToUpperCase roomCode) with
  | none => st
  | some room =>
    let newUser : UserR :=
      { id := socketId, userName := userName, isOwner := room.owner = socketId }
    let joined : Room :=
      { room with users := AssocMap.mset socketId newUser room.users }
    match room.password with
    | some stored =>
      if stored = pw then
        { st with rooms := AssocMap.mset (jsToUpperCase roomCode) joined st.rooms }
      else st
    | none =>
      { st with rooms := AssocMap.mset (jsToUpperCase roomCode) joined st.rooms }

/-- The room-code generation loop of `create-room` (`src/server.js` lines
193-196): draw codes from the random stream until one is unused.  The JS
do-while retries unboundedly, so the embedding carries explicit fuel and
returns `none` if the fuel runs out. -/
def genUniqueCode (randStream : Nat → String) (rooms : List (String × Room)) :
    Nat → Nat → Option String
  | _, 0 => none
  | i, fuel + 1 =>
    let c := randStream i
    if AssocMap.mget rooms c = none then some c
    else genUniqueCode randStream rooms (i + 1) fuel

/-- The `create-room` handler (`src/server.js` lines 189-249): generate an
unused code, build the room with the requester as owner and sole member
(an empty password string is stored as no password, from
`password: password || null`), and register it. -/
def createRoom (randStream : Nat → String) (fuel : Nat) (socketId : Nat)
    (userName roomName pw : String) (st : RegSt) : Option (String × RegSt) :=
  match genUniqueCode randStream st.rooms 0 fuel with
  | none => none
  | some code =>
    let user : UserR := { id := socketId, userName := userName, isOwner := true }
    let room : Room :=
      { code := code, name := roomName,
        password := if pw = "" then none else some pw,
        owner := socketId, users := [(socketId, user)] }
    some (code, { st with rooms := AssocMap.mset code room st.rooms })

end Registry

namespace ScreenShare

/-- A pending screen-share request (`src/server.js` lines 574-579). -/
structure SSRequest where
  requesterName : String
  requesterSocketId : Nat
  roomCode : String
  timestamp : Nat
  deriving Repr, DecidableEq

/-- The room-level screen-share grant (`src/server.js` lines 601-605). -/
structure Grant where
  userName : String
  socketId : Nat
  startedAt : Nat
  deriving Repr, DecidableEq

/-- A room as the screen-share workflow sees it. -/
structure RoomS where
  owner : Nat
  screenSharing : Option Grant
  deriving Repr, DecidableEq

/-- The screen-share-relevant server state: the `rooms` map and the global
`screenShareRequests` map keyed by requester socket id. -/
structure SSState where
  rooms : List (String × RoomS)
  screenShareRequests : List (Nat × SSRequest)
  deriving Repr, DecidableEq

/-- The per-connection closure variables `currentRoomCode` and `currentUser`
consulted by the handlers' guard. -/
structure Ctx where
  socketId : Nat
  currentRoomCode : Option String
  currentUser : Option Registry.UserR
  deriving Repr, DecidableEq

/-- The `approve-screen-share` handler (`src/server.js` lines 593-620):
return unchanged unless the caller has a room, a user record and the
`isOwner` flag; then, if a pending request exists for the named requester
socket, install the grant on the caller's own room and consume the request.
The request's own room code is never consulted.  If the caller's room is
missing the property assignment throws and the per-event try/catch leaves
the state unchanged. -/
def approveScreenShare (ctx : Ctx) (requesterSocketId : Nat) (now : Nat)
    (st : SSState) : SSState :=
  match ctx.currentRoomCode, ctx.currentUser with
  | some roomCode, some user =>
    if user.isOwner then
      match AssocMap.mget st.screenShareRequests requesterSocketId with
      | some request =>
        match AssocMap.mget st.rooms roomCode with
        | some room =>
          let grant : Grant :=
            { userName := request.requesterName,
              socketId := requesterSocketId, startedAt := now }
          { rooms := AssocMap.mset roomCode
              { room with screenSharing := some grant } st.rooms,
            screenShareRequests :=
              AssocMap.mdel requesterSocketId st.screenShareRequests }
        | none => st
      | none => st
    else st
  | _, _ => st

/-- The `reject-screen-share` handler (`src/server.js` lines 623-636): same
owner guard; if a pending request exists it is consumed, and no room state is
touched. -/
def rejectScreenShare (ctx : Ctx) (requesterSocketId : Nat) (st : SSState) :
    SSState :=
  match ctx.currentRoomCode, ctx.currentUser with
  | some _, some user =>
    if user.isOwner then
      match AssocMap.mget st.screenShareRequests requesterSocketId with
      | some _ =>
        { st with screenShareRequests :=
            AssocMap.mdel requesterSocketId st.screenShareRequests }
      | none => st
    else st
  | _, _ => st

/-- Two rooms: socket 1 owns room R1AAAA, socket 2 owns room R2BBBB, and
socket 5 (a participant of R2BBBB) holds a pending screen-share request. -/
def twoRoomSt : SSState :=
  { rooms := [("R1AAAA", { owner := 1, screenSharing := none }),
              ("R2BBBB", { owner := 2, screenSharing := none })],
    screenShareRequests :=
      [(5, { requesterName := "quinn", requesterSocketId := 5,
             roomCode := "R2BBBB", timestamp := 1000 })] }

/-- The owner of R1AAAA, acting from their own room. -/
def ownerOneCtx : Ctx :=
  { socketId := 1, currentRoomCode := some "R1AAAA",
    currentUser := some { id := 1, userName := "omar", isOwner := true } }

end ScreenShare

namespace Playlist

/-- One uploaded track (`src/server.js` lines 675-682). -/
structure Track where
  id : String
  url : String
  fileName : String
  fileSize : Nat
  uploader : String
  uploadTime : Nat
  deriving Repr, DecidableEq

/-- A room's `roomPlaylist`: participant name to list of uploaded tracks. -/
abbrev PlaylistMap := List (String × List Track)

/-- The JavaScript `Math.round((a / b) * 100)` on non-negative operands:
floor of `100 * a / b + 1 / 2`, halves rounding up. -/
def roundPct (a b : Nat) : Nat :=
  (200 * a + b) / (2 * b)

/-- The percentage the spec prescribes for `playlist-updated`: participants
owning at least one track over current room membership, times 100, rounded.
Stated from the spec's words for comparison with the handlers' computation. -/
def specUploadProgress (pl : PlaylistMap) (totalUsers : Nat) : Nat :=
  roundPct (pl.filter (fun p => 0 < p.2.length)).length totalUsers

/-- The `upload-playlist-music` handler (`src/server.js` lines 658-700):
append the track to the caller's per-room list (creating it on first use),
then broadcast a progress of `Math.round(usersWithMusic / totalUsers * 100)`
where `usersWithMusic = Array.from(roomPlaylist.keys()).length`, the number
of participants holding a playlist key, empty lists included. -/
def uploadPlaylistMusic (user : String) (tr : Track) (totalUsers : Nat)
    (pl : PlaylistMap) : PlaylistMap × Nat :=
  let userMusic := (AssocMap.mget pl user).getD []
  let pl2 := AssocMap.mset user (userMusic ++ [tr]) pl
  (pl2, roundPct pl2.length totalUsers)

/-- The `confirm-delete-music` handler (`src/server.js` lines 728-769): if
the caller holds a playlist key, clear their list and broadcast a progress
counting only keys whose list is non-empty; otherwise nothing happens and
nothing is broadcast. -/
def confirmDeleteMusic (user : String) (totalUsers : Nat) (pl : PlaylistMap) :
    Option (PlaylistMap × Nat) :=
  match AssocMap.mget pl user with
  | some _ =>
    let pl2 := AssocMap.mset user [] pl
    let usersWithMusic := (pl2.filter (fun p => 0 < p.2.length)).length
    some (pl2, roundPct usersWithMusic totalUsers)
  | none => none

/-- A concrete track for the counterexample states. -/
def trackA1 : Track :=
  { id := "t1", url := "u1", fileName := "a.mp3", fileSize := 10,
    uploader := "alice", uploadTime := 100 }

/-- A second concrete track uploaded by the same participant. -/
def trackA2 : Track :=
  { id := "t2", url := "u2", fileName := "b.mp3", fileSize := 20,
    uploader := "alice", uploadTime := 200 }

/-- A concrete track uploaded by participant bob. -/
def trackB0 : Track :=
  { id := "t0", url := "u0", fileName := "c.mp3", fileSize := 30,
    uploader := "bob", uploadTime := 50 }

end Playlist

namespace AssocMap

theorem mget_cons {κ ν : Type} [DecidableEq κ] (k q : κ) (v : ν) (m : List (κ × ν)) :
    mget ((k, v) :: m) q = if q = k then some v else mget m q := rfl

theorem mget_filter_ne {κ ν : Type} [DecidableEq κ] (k q : κ) (m : List (κ × ν))
    (h : q ≠ k) : mget (m.filter (fun p => p.1 ≠ k)) q = mget m q := by
  induction m with
  | nil => rfl
  | cons a m ih =>
    obtain ⟨k1, v1⟩ := a
    by_cases hk : k1 = k
    · subst hk
      rw [List.filter_cons, if_neg (by simp), ih, mget_cons, if_neg h]
    · rw [List.filter_cons, if_pos (by simp [hk]), mget_cons, mget_cons, ih]

theorem mget_filter_self {κ ν : Type} [DecidableEq κ] (k : κ) (m : List (κ × ν)) :
    mget (m.filter (fun p => p.1 ≠ k)) k = none := by
  induction m with
  | nil => rfl
  | cons a m ih =>
    obtain ⟨k1, v1⟩ := a
    by_cases hk : k1 = k
    · subst hk
      rw [List.filter_cons, if_neg (by simp), ih]
    · rw [List.filter_cons, if_pos (by simp [hk]), mget_cons,
        if_neg (fun he => hk he.symm), ih]

theorem mget_mset {κ ν : Type} [DecidableEq κ] (k q : κ) (v : ν) (m : List (κ × ν)) :
    mget (mset k v m) q = if q = k then some v else mget m q := by
  simp only [mset, mget_cons]
  by_cases h : q = k
  · rw [if_pos h, if_pos h]
  · rw [if_neg h, if_neg h, mget_filter_ne k q m h]

theorem mget_mdel {κ ν : Type} [DecidableEq κ] (k q : κ) (m : List (κ × ν)) :
    mget (mdel k m) q = if q = k then none else mget m q := by
  simp only [mdel]
  by_cases h : q = k
  · rw [if_pos h, h, mget_filter_self]
  · rw [if_neg h, mget_filter_ne k q m h]

theorem mem_of_mget_eq_some {κ ν : Type} [DecidableEq κ] {m : List (κ × ν)}
    {q : κ} {v : ν} (h : mget m q = some v) : (q, v) ∈ m := by
  induction m with
  | nil => simp [mget] at h
  | cons a m ih =>
    obtain ⟨k1, v1⟩ := a
    rw [mget_cons] at h
    by_cases hq : q = k1
    · rw [if_pos hq] at h
      obtain rfl : v1 = v := by injection h
      subst hq
      exact List.mem_cons_self _ _
    · rw [if_neg hq] at h
      exact List.mem_cons_of_mem _ (ih h)

theorem forall_ne_of_mget_eq_none {κ ν : Type} [DecidableEq κ] {m : List (κ × ν)}
    {q : κ} (h : mget m q = none) : ∀ p ∈ m, p.1 ≠ q := by
  induction m with
  | nil => simp
  | cons a m ih =>
    obtain ⟨k1, v1⟩ := a
    rw [mget_cons] at h
    by_cases hq : q = k1
    · rw [if_pos hq] at h
      exact absurd h (by simp)
    · rw [if_neg hq] at h
      intro p hp
      rcases List.mem_cons.mp hp with rfl | hp2
      · exact fun he => hq he.symm
      · exact ih h p hp2

theorem mem_mdel {κ ν : Type} [DecidableEq κ] {m : List (κ × ν)} {k : κ}
    {p : κ × ν} : p ∈ mdel k m ↔ p ∈ m ∧ p.1 ≠ k := by
  simp [mdel, List.mem_filter]

theorem mem_mset {κ ν : Type} [DecidableEq κ] {m : List (κ × ν)} {k : κ} {v : ν}
    {p : κ × ν} : p ∈ mset k v m ↔ p = (k, v) ∨ (p ∈ m ∧ p.1 ≠ k) := by
  simp [mset, List.mem_filter]

end AssocMap

namespace Chat

theorem editMessage_eq_guarded (log : List Msg) (messageId newText caller ts : String) :
    editMessage log messageId newText caller ts =
      guardedUpdateFirst messageId (fun m => m.userName == caller)
        (fun m => { m with text := newText, edited := true, editTime := some ts })
        log := by
  induction log with
  | nil => rfl
  | cons m ms ih =>
    simp only [editMessage, guardedUpdateFirst, ih]

theorem deleteMessage_eq_guarded (log : List Msg) (messageId caller ts : String) :
    deleteMessage log messageId caller ts =
      guardedUpdateFirst messageId (fun m => m.userName == caller)
        (fun m => { m with deleted := true, deletedTime := some ts }) log := by
  induction log with
  | nil => rfl
  | cons m ms ih =>
    simp only [deleteMessage, guardedUpdateFirst, ih]

theorem guardedUpdateFirst_of_absent (messageId : String) (g : Msg → Bool)
    (f : Msg → Msg) (log : List Msg) (h : ∀ m ∈ log, m.id ≠ messageId) :
    guardedUpdateFirst messageId g f log = log := by
  induction log with
  | nil => rfl
  | cons m ms ih =>
    have hm : ¬(m.id == messageId) = true := by
      simp [h m (List.mem_cons_self _ _)]
    rw [guardedUpdateFirst, if_neg hm,
      ih (fun x hx => h x (List.mem_cons_of_mem _ hx))]

theorem guardedUpdateFirst_found (messageId : String) (g : Msg → Bool)
    (f : Msg → Msg) (log : List Msg) (m : Msg) (hmem : m ∈ log)
    (hid : m.id = messageId) (hnd : (log.map Msg.id).Nodup) :
    guardedUpdateFirst messageId g f log =
      if g m then log.map (fun x => if x.id == messageId then f x else x)
      else log := by
  induction log with
  | nil => exact absurd hmem (List.not_mem_nil m)
  | cons a ms ih =>
    rw [List.map_cons, List.nodup_cons] at hnd
    rcases List.mem_cons.mp hmem with rfl | hmem2
    · have hrest : ms.map (fun x => if x.id == messageId then f x else x) = ms := by
        have hcong : ∀ x ∈ ms, (if x.id == messageId then f x else x) = x := by
          intro x hx
          have hxid : x.id ≠ messageId := by
            intro he
            exact hnd.1 (hid ▸ he ▸ List.mem_map_of_mem Msg.id hx)
          rw [if_neg (by simp [hxid])]
        rw [List.map_congr_left hcong, List.map_id']
      rw [guardedUpdateFirst, if_pos (by simp [hid])]
      by_cases hg : g m
      · rw [if_pos hg, if_pos hg, List.map_cons, if_pos (by simp [hid]), hrest]
      · rw [if_neg hg, if_neg hg]
    · have ha : a.id ≠ messageId := by
        intro he
        exact hnd.1 (he ▸ hid ▸ List.mem_map_of_mem Msg.id hmem2)
      rw [guardedUpdateFirst, if_neg (by simp [ha]), ih hmem2 hnd.2]
      by_cases hg : g m
      · rw [if_pos hg, if_pos hg, List.map_cons, if_neg (by simp [ha])]
      · rw [if_neg hg, if_neg hg]

/-- Claim C3: an `edit-message` or `delete-message` event mutates the stored
message (new text plus edited flag, or deleted flag) iff the caller's display
name equals the message's recorded author name; when the names differ, or the
message id is absent from the room's log, the log is left unchanged. -/
theorem edit_delete_author_only (log : List Msg)
    (messageId newText caller ts : String) :
    ((∀ m ∈ log, m.id ≠ messageId) →
        editMessage log messageId newText caller ts = log
        ∧ deleteMessage log messageId caller ts = log)
    ∧ (∀ m ∈ log, m.id = messageId → (log.map Msg.id).Nodup →
        (m.userName ≠ caller →
            editMessage log messageId newText caller ts = log
            ∧ deleteMessage log messageId caller ts = log)
        ∧ (m.userName = caller →
            editMessage log messageId newText caller ts =
              log.map (fun x => if x.id == messageId then
                { x with text := newText, edited := true, editTime := some ts }
                else x)
            ∧ deleteMessage log messageId caller ts =
              log.map (fun x => if x.id == messageId then
                { x with deleted := true, deletedTime := some ts } else x))) := by
  constructor
  · intro h
    rw [editMessage_eq_guarded, deleteMessage_eq_guarded,
      guardedUpdateFirst_of_absent _ _ _ _ h, guardedUpdateFirst_of_absent _ _ _ _ h]
    exact ⟨rfl, rfl⟩
  · intro m hmem hid hnd
    constructor
    · intro hne
      have hg : (m.userName == caller) = false := by simp [hne]
      rw [editMessage_eq_guarded, deleteMessage_eq_guarded,
        guardedUpdateFirst_found _ _ _ _ m hmem hid hnd,
        guardedUpdateFirst_found _ _ _ _ m hmem hid hnd, hg]
      exact ⟨rfl, rfl⟩
    · intro heq
      have hg : (m.userName == caller) = true := by simp [heq]
      rw [editMessage_eq_guarded, deleteMessage_eq_guarded,
        guardedUpdateFirst_found _ _ _ _ m hmem hid hnd,
        guardedUpdateFirst_found _ _ _ _ m hmem hid hnd, hg]
      exact ⟨rfl, rfl⟩

/-- Witness for C3: in a one-message log authored by alice, alice's edit
rewrites the message text and sets the edited flag. -/
theorem edit_delete_author_only_witness :
    editMessage [mkMessage "m1" "alice" "p" "c" "hi" "text" "" "" 0 "12:00"]
        "m1" "yo" "alice" "12:05" =
      [mkMessage "m1" "alice" "p" "c" "hi" "text" "" "" 0 "12:00"].map
        (fun x => if x.id == "m1" then
          { x with text := "yo", edited := true, editTime := some "12:05" }
          else x) :=
  (((edit_delete_author_only
      [mkMessage "m1" "alice" "p" "c" "hi" "text" "" "" 0 "12:00"]
      "m1" "yo" "alice" "12:05").2
    (mkMessage "m1" "alice" "p" "c" "hi" "text" "" "" 0 "12:00")
    (List.mem_cons_self _ _) rfl (by decide)).2 rfl).1

end Chat

namespace Chat

theorem lookup_cons_ite (a k b : String) (es : List (String × String)) :
    ((k, b) :: es).lookup a = if a == k then some b else es.lookup a := by
  cases h : a == k <;> simp [List.lookup, h]

theorem lookup_filter_user_ne (user k : String) (rs : List (String × String))
    (h : k ≠ user) :
    (rs.filter (fun p => p.1 ≠ user)).lookup k = rs.lookup k := by
  induction rs with
  | nil => rfl
  | cons a rs ih =>
    obtain ⟨k1, v1⟩ := a
    by_cases hk : k1 = user
    · subst hk
      rw [List.filter_cons, if_neg (by simp), ih, lookup_cons_ite,
        if_neg (by simp [h])]
    · rw [List.filter_cons, if_pos (by simp [hk]), lookup_cons_ite,
        lookup_cons_ite, ih]

theorem lookup_filter_user_self (user : String) (rs : List (String × String)) :
    (rs.filter (fun p => p.1 ≠ user)).lookup user = none := by
  induction rs with
  | nil => rfl
  | cons a rs ih =>
    obtain ⟨k1, v1⟩ := a
    by_cases hk : k1 = user
    · subst hk
      rw [List.filter_cons, if_neg (by simp), ih]
    · rw [List.filter_cons, if_pos (by simp [hk]), lookup_cons_ite,
        if_neg (by simp; exact fun he => hk he.symm), ih]

theorem lookup_append_or (l₁ l₂ : List (String × String)) (k : String) :
    (l₁ ++ l₂).lookup k = (l₁.lookup k).or (l₂.lookup k) := by
  induction l₁ with
  | nil => simp [List.lookup]
  | cons a l₁ ih =>
    obtain ⟨k1, v1⟩ := a
    rw [List.cons_append, lookup_cons_ite, lookup_cons_ite, ih]
    by_cases h : (k == k1) = true
    · rw [if_pos h, if_pos h]
      rfl
    · rw [if_neg h, if_neg h]

theorem toggleReaction_lookup (user reaction : String)
    (rs : List (String × String)) (k : String) :
    (toggleReaction user reaction rs).lookup k =
      if k = user then
        (if rs.lookup user = some reaction then none else some reaction)
      else rs.lookup k := by
  unfold toggleReaction
  by_cases hc : rs.lookup user = some reaction
  · rw [if_pos hc]
    by_cases hk : k = user
    · subst hk
      rw [lookup_filter_user_self, if_pos rfl, if_pos hc]
    · rw [lookup_filter_user_ne user k rs hk, if_neg hk]
  · rw [if_neg hc]
    by_cases hk : k = user
    · subst hk
      rw [lookup_append_or, lookup_filter_user_self, lookup_cons_ite,
        if_pos (by simp), if_pos rfl, if_neg hc]
      rfl
    · rw [lookup_append_or, lookup_filter_user_ne user k rs hk, lookup_cons_ite,
        if_neg (by simp [hk]), if_neg hk]
      exact Option.or_none

/-- Claim C8 (amended): the reaction toggle records at most one symbol per
participant per message; submitting the currently recorded symbol removes the
entry and any other submission replaces or installs it; a double submission of
the same symbol restores the original reaction map whenever the participant's
prior reaction was that same symbol or absent (if a different symbol was
recorded, the double submission removes it instead); and key uniqueness of
the reaction map is preserved. -/
theorem reaction_toggle_behavior (rs : List (String × String))
    (user reaction : String) :
    (∀ k, (toggleReaction user reaction rs).lookup k =
        if k = user then
          (if rs.lookup user = some reaction then none else some reaction)
        else rs.lookup k)
    ∧ ((rs.lookup user = some reaction ∨ rs.lookup user = none) →
        MapEqv (toggleReaction user reaction (toggleReaction user reaction rs)) rs)
    ∧ ((rs.map Prod.fst).Nodup →
        ((toggleReaction user reaction rs).map Prod.fst).Nodup) := by
  refine ⟨fun k => toggleReaction_lookup user reaction rs k, ?_, ?_⟩
  · intro hcase k
    simp only [toggleReaction_lookup]
    rcases hcase with hc | hc <;> by_cases hk : k = user <;> simp [hk, hc]
  · intro hnd
    unfold toggleReaction
    by_cases hc : rs.lookup user = some reaction
    · rw [if_pos hc]
      exact hnd.sublist ((List.filter_sublist rs).map Prod.fst)
    · rw [if_neg hc, List.map_append]
      refine List.Nodup.append (hnd.sublist ((List.filter_sublist rs).map Prod.fst))
        (List.nodup_singleton _) ?_
      intro a ha hb
      rcases List.mem_map.mp ha with ⟨p, hp, rfl⟩
      have hpu : p.1 ≠ user := by simpa using (List.mem_filter.mp hp).2
      exact hpu (List.mem_singleton.mp hb)

/-- Witness for C8: toggling a reaction twice from a state where the
participant had no recorded reaction restores the original map. -/
theorem reaction_toggle_behavior_witness :
    MapEqv
      (toggleReaction "alice" "up" (toggleReaction "alice" "up" [("bob", "fire")]))
      [("bob", "fire")] :=
  ((reaction_toggle_behavior [("bob", "fire")] "alice" "up").2.1)
    (Or.inr (by decide))

/-- Counterexample to C8 as stated: participant alice has reaction "up"
recorded; submitting "heart" twice first replaces "up" and then removes the
entry, so the final map records nothing for alice and the original map is not
restored. -/
theorem reaction_double_counterexample :
    ¬ MapEqv
        (toggleReaction "alice" "heart"
          (toggleReaction "alice" "heart" [("alice", "up")]))
        [("alice", "up")] :=
  fun h => absurd (h "alice") (by decide)

theorem postMessage_getLast (log : List Msg) (m : Msg) :
    (postMessage log m).getLast? = some m := by
  simp only [postMessage]
  by_cases h : (log ++ [m]).length > 100
  · rw [if_pos h, List.getLast?_drop,
      if_neg (by omega : ¬((log ++ [m]).length ≤ (log ++ [m]).length - 100)),
      List.getLast?_concat]
  · rw [if_neg h, List.getLast?_concat]

/-- Claim C10: the message stored by the `message` handler (the last entry of
the updated log, surviving the 100-message cap) starts with a seen set
holding exactly the author's own name. -/
theorem post_message_seen_self (log : List Msg)
    (idStr author photo color textStr ty fileUrl fileName : String)
    (fileSize : Nat) (timeStr : String) :
    (postMessage log
        (mkMessage idStr author photo color textStr ty fileUrl fileName
          fileSize timeStr)).getLast?
      = some (mkMessage idStr author photo color textStr ty fileUrl fileName
          fileSize timeStr)
    ∧ (mkMessage idStr author photo color textStr ty fileUrl fileName
        fileSize timeStr).seenBy = [author] :=
  ⟨postMessage_getLast log _, rfl⟩

end Chat

namespace Liveness

/-- Counterexample to C1 as stated: a connected client that never sends a
heartbeat acknowledgment.  Its record timestamp is refreshed by the server's
own 10-second probe emitter (`conn.lastPing = Date.now()` inside the `ping`
interval, `src/server.js` lines 168-178), so at time 75000 ms, more than
40 s plus a full sweep period after the last (indeed, after any)
acknowledgment, the record is still present and the connection was never
forcibly disconnected. -/
theorem monitor_noAck_counterexample :
    (run (connect 0) noAckTrace).present = true
    ∧ (run (connect 0) noAckTrace).forced = false := by
  decide

/-- Claim C1 (amended): the record timestamp is refreshed both by the
server's 10-second probe while the socket is connected and by a client
acknowledgment; a record whose timestamp is more than 40 s stale at a sweep
(which, for a socket that stays connected, never happens, since the probe
refreshes it every 10 s) is removed, with the socket forcibly disconnected if
still connected; and with sweeps every 20 s, some sweep lands within 20 s
after the 40 s staleness threshold and removes such a record. -/
theorem monitor_refresh_sweep (s : ConnState) (hp : s.present = true) :
    (∀ t, s.connected = true → (step s (.probe t)).lastPing = t)
    ∧ (∀ t, (step s (.pong t)).lastPing = t)
    ∧ (∀ t, 40000 < t - s.lastPing →
        (step s (.sweep t)).present = false
        ∧ (step s (.sweep t)).forced = (s.forced || s.connected))
    ∧ (∀ phase, phase < 20000 →
        ∃ k, s.lastPing + 40000 < 20000 * k + phase
          ∧ 20000 * k + phase ≤ s.lastPing + 60000
          ∧ (step s (.sweep (20000 * k + phase))).present = false) := by
  have hreap : ∀ t, 40000 < t - s.lastPing →
      (step s (.sweep t)).present = false
      ∧ (step s (.sweep t)).forced = (s.forced || s.connected) := by
    intro t ht
    simp [step, hp, ht]
  refine ⟨?_, ?_, hreap, ?_⟩
  · intro t hc
    simp [step, hp, hc]
  · intro t
    simp [step, hp]
  · intro phase hph
    refine ⟨(s.lastPing + 40000 - phase) / 20000 + 1, ?_, ?_, ?_⟩
    · have hdm := Nat.div_add_mod (s.lastPing + 40000 - phase) 20000
      have hmod := Nat.mod_lt (s.lastPing + 40000 - phase) (by omega : 0 < 20000)
      omega
    · have hdm := Nat.div_add_mod (s.lastPing + 40000 - phase) 20000
      have hmod := Nat.mod_lt (s.lastPing + 40000 - phase) (by omega : 0 < 20000)
      omega
    · refine (hreap _ ?_).1
      have hdm := Nat.div_add_mod (s.lastPing + 40000 - phase) 20000
      have hmod := Nat.mod_lt (s.lastPing + 40000 - phase) (by omega : 0 < 20000)
      omega

/-- Witness for the amended C1: a stale record of a no-longer-connected
socket is removed by the sweep at 50000 ms. -/
theorem monitor_refresh_sweep_witness :
    (step { lastPing := 0, present := true, connected := false, forced := false }
        (.sweep 50000)).present = false :=
  ((monitor_refresh_sweep
      { lastPing := 0, present := true, connected := false, forced := false }
      rfl).2.2.1 50000 (by decide)).1

end Liveness

namespace RoomSweep

/-- Counterexample to C4 as stated: the room of `oldRoomSt` (created at time
0) empties at 3690000 ms; the cleanup sweep at 3700000 ms deletes it and its
message log although it has been empty for only 10000 ms, far less than one
hour, because the sweep compares the current time against `room.createdAt`
rather than against how long the room has been empty. -/
theorem hourly_sweep_counterexample :
    (runRoom oldRoomSt [.leave 3690000 7]).room =
      some { createdAt := 0, users := [], emptySince := some 3690000 }
    ∧ (runRoom oldRoomSt [.leave 3690000 7, .sweep 3700000]).room = none
    ∧ (runRoom oldRoomSt [.leave 3690000 7, .sweep 3700000]).msgsPresent = false
    ∧ 3700000 - 3690000 ≤ 3600000 := by
  decide

/-- Claim C4 (amended): the periodic backstop sweep deletes a room and its
message log iff the room is empty at sweep time and was created more than one
hour before the sweep.  Hence a room with members is never deleted, and a
room continuously empty for over an hour is deleted, but a room created over
an hour ago that became empty only moments before the sweep is deleted as
well. -/
theorem hourly_sweep_behavior (st : SweepSt) (r : RoomG)
    (h : st.room = some r) (t : Nat) :
    ((stepRoom st (.sweep t)).room = none ↔
        (r.users = [] ∧ 3600000 < t - r.createdAt))
    ∧ (r.users ≠ [] → stepRoom st (.sweep t) = st)
    ∧ ((stepRoom st (.sweep t)).room = none →
        (stepRoom st (.sweep t)).msgsPresent = false)
    ∧ (∀ e, r.users = [] → r.emptySince = some e → r.createdAt ≤ e →
        3600000 < t - e → (stepRoom st (.sweep t)).room = none) := by
  refine ⟨⟨?_, ?_⟩, ?_, ?_, ?_⟩
  · intro hdel
    by_contra hcond
    rw [show stepRoom st (.sweep t) = st by simp [stepRoom, h, hcond], h] at hdel
    exact Option.noConfusion hdel
  · intro hcond
    simp [stepRoom, h, hcond]
  · intro hne
    have hcond : ¬(r.users = [] ∧ 3600000 < t - r.createdAt) := fun hc => hne hc.1
    simp [stepRoom, h, hcond]
  · intro hdel
    by_cases hcond : r.users = [] ∧ 3600000 < t - r.createdAt
    · simp [stepRoom, h, hcond]
    · rw [show stepRoom st (.sweep t) = st by simp [stepRoom, h, hcond], h] at hdel
      exact absurd hdel (by simp)
  · intro e hu he hce ht
    have hcond : r.users = [] ∧ 3600000 < t - r.createdAt := ⟨hu, by omega⟩
    simp [stepRoom, h, hcond]

/-- Witness for the amended C4: an empty room created at time 0 is deleted by
a sweep at 4000000 ms. -/
theorem hourly_sweep_behavior_witness :
    (stepRoom
        { room := some { createdAt := 0, users := [], emptySince := some 100 },
          msgsPresent := true } (.sweep 4000000)).room = none :=
  ((hourly_sweep_behavior
      { room := some { createdAt := 0, users := [], emptySince := some 100 },
        msgsPresent := true }
      { createdAt := 0, users := [], emptySince := some 100 } rfl 4000000).1).mpr
    (by decide)

end RoomSweep

namespace Registry

/-- Claim C7: when the grace-period timer fires with the room still empty,
the room and its chat log are deleted; when the room is non-empty (in
particular after any participant rejoined via `join-room` during the grace
period), the timer leaves the whole state, message history included,
untouched. -/
theorem grace_period_deletion (st : RegSt) (code : String) (r : Room)
    (h : AssocMap.mget st.rooms code = some r) :
    (r.users = [] →
        AssocMap.mget (graceFire code st).rooms code = none
        ∧ AssocMap.mget (graceFire code st).messages code = none)
    ∧ (r.users ≠ [] → graceFire code st = st)
    ∧ (∀ sid name pw, jsToUpperCase code = code →
        (r.password = none ∨ r.password = some pw) →
        graceFire code (joinRoom sid name code pw st) =
          joinRoom sid name code pw st
        ∧ (joinRoom sid name code pw st).messages = st.messages) := by
  refine ⟨?_, ?_, ?_⟩
  · intro hu
    simp [graceFire, h, hu, AssocMap.mget_mdel]
  · intro hne
    simp [graceFire, h, hne]
  · intro sid name pw hup hpw
    have key : ∀ joined : Room, joined.users ≠ [] →
        graceFire code { st with rooms := AssocMap.mset code joined st.rooms } =
          { st with rooms := AssocMap.mset code joined st.rooms } := by
      intro joined hne
      simp [graceFire, AssocMap.mget_mset, hne]
    rcases hpw with hpw | hpw
    · simp only [joinRoom, hup, h, hpw]
      exact ⟨key _ (by simp [AssocMap.mset]), trivial⟩
    · simp only [joinRoom, hup, h, hpw, if_pos]
      exact ⟨key _ (by simp [AssocMap.mset]), trivial⟩

/-- Witness for C7: the timer deletes an empty room and its log, and a
rejoin during the grace period preserves both. -/
theorem grace_period_deletion_witness :
    AssocMap.mget (graceFire "ROOMAB"
        { rooms := [("ROOMAB",
            { code := "ROOMAB", name := "movie", password := none,
              owner := 9, users := [] })],
          messages := [("ROOMAB", [])] }).rooms "ROOMAB" = none
    ∧ AssocMap.mget (graceFire "ROOMAB"
        { rooms := [("ROOMAB",
            { code := "ROOMAB", name := "movie", password := none,
              owner := 9, users := [] })],
          messages := [("ROOMAB", [])] }).messages "ROOMAB" = none :=
  ((grace_period_deletion
      { rooms := [("ROOMAB",
          { code := "ROOMAB", name := "movie", password := none,
            owner := 9, users := [] })],
        messages := [("ROOMAB", [])] }
      "ROOMAB"
      { code := "ROOMAB", name := "movie", password := none,
        owner := 9, users := [] } rfl).1) rfl

theorem genUniqueCode_spec (randStream : Nat → String)
    (rooms : List (String × Room)) (i fuel : Nat) (c : String)
    (h : genUniqueCode randStream rooms i fuel = some c) :
    AssocMap.mget rooms c = none := by
  induction fuel generalizing i with
  | zero => exact Option.noConfusion h
  | succ fuel ih =>
    rw [genUniqueCode] at h
    by_cases hc : AssocMap.mget rooms (randStream i) = none
    · rw [if_pos hc] at h
      injection h with h2
      exact h2 ▸ hc
    · rw [if_neg hc] at h
      exact ih (i + 1) h

/-- Claim C9: when `create-room` completes, the assigned room code differs
from the code of every room existing at that moment (the generation loop
retries until the code is unused), and the new room is registered under the
assigned code. -/
theorem create_room_code_unique (randStream : Nat → String) (fuel sid : Nat)
    (userName roomName pw : String) (st : RegSt) (code : String) (st2 : RegSt)
    (h : createRoom randStream fuel sid userName roomName pw st
      = some (code, st2)) :
    (∀ p ∈ st.rooms, p.1 ≠ code)
    ∧ (AssocMap.mget st2.rooms code).isSome := by
  unfold createRoom at h
  cases hg : genUniqueCode randStream st.rooms 0 fuel with
  | none =>
    rw [hg] at h
    exact Option.noConfusion h
  | some c =>
    rw [hg] at h
    injection h with h2
    rw [Prod.mk.injEq] at h2
    obtain ⟨rfl, rfl⟩ := h2
    refine ⟨AssocMap.forall_ne_of_mget_eq_none
      (genUniqueCode_spec randStream st.rooms 0 fuel c hg), ?_⟩
    simp [AssocMap.mget_mset]

/-- Witness for C9: with one existing room coded AAAAAA and a random stream
drawing AAAAAA first and BBBBBB second, the created room receives BBBBBB,
distinct from the existing room's code. -/
theorem create_room_code_unique_witness :
    (("AAAAAA",
        ({ code := "AAAAAA", name := "old", password := none, owner := 9,
           users := [] } : Room))).1 ≠ "BBBBBB" :=
  (create_room_code_unique (fun n => if n = 0 then "AAAAAA" else "BBBBBB") 5 1
    "alice" "myroom" ""
    { rooms := [("AAAAAA",
        { code := "AAAAAA", name := "old", password := none, owner := 9,
          users := [] })],
      messages := [] } _ _ rfl).1
    ("AAAAAA",
      { code := "AAAAAA", name := "old", password := none, owner := 9,
        users := [] })
    (List.mem_cons_self _ _)

end Registry

namespace ScreenShare

/-- Counterexample to C6 as stated: the pending request of socket 5 belongs
to room R2BBBB (owned by socket 2), yet socket 1 — the recorded owner of a
different room — successfully consumes it via `approve-screen-share`, and the
grant is installed in socket 1's own room R1AAAA.  The handler checks only
the caller's own `isOwner` flag and never compares the request's room with
the caller's room. -/
theorem cross_room_approve_counterexample :
    AssocMap.mget (approveScreenShare ownerOneCtx 5 2000
        twoRoomSt).screenShareRequests 5 = none
    ∧ AssocMap.mget (approveScreenShare ownerOneCtx 5 2000 twoRoomSt).rooms
        "R1AAAA" =
          some { owner := 1, screenSharing := some (Grant.mk "quinn" 5 2000) }
    ∧ (∀ rq ∈ twoRoomSt.screenShareRequests, rq.2.roomCode = "R2BBBB")
    ∧ ownerOneCtx.currentRoomCode = some "R1AAAA" := by
  decide

/-- Claim C6 (amended): an `approve-screen-share` or `reject-screen-share`
has effect only when the caller has a room, a user record and the owner flag
(the recorded owner of the caller's own room — the request's room is not
checked), and only when the named requester holds a pending request;
otherwise all screen-share state is unchanged.  When it does fire, approve
consumes the request and installs the grant on the caller's room, and reject
consumes the request leaving all rooms untouched. -/
theorem owner_gated_consume (ctx : Ctx) (rq now : Nat) (st : SSState) :
    ((ctx.currentRoomCode = none ∨ ctx.currentUser = none
        ∨ (∀ u, ctx.currentUser = some u → u.isOwner = false)) →
      approveScreenShare ctx rq now st = st ∧ rejectScreenShare ctx rq st = st)
    ∧ (AssocMap.mget st.screenShareRequests rq = none →
      approveScreenShare ctx rq now st = st ∧ rejectScreenShare ctx rq st = st)
    ∧ (∀ roomCode u req room,
        ctx.currentRoomCode = some roomCode → ctx.currentUser = some u →
        u.isOwner = true →
        AssocMap.mget st.screenShareRequests rq = some req →
        AssocMap.mget st.rooms roomCode = some room →
        AssocMap.mget (approveScreenShare ctx rq now st).screenShareRequests rq
            = none
        ∧ AssocMap.mget (approveScreenShare ctx rq now st).rooms roomCode
            = some { room with
                       screenSharing :=
                         some (Grant.mk req.requesterName rq now) }
        ∧ AssocMap.mget (rejectScreenShare ctx rq st).screenShareRequests rq
            = none
        ∧ (rejectScreenShare ctx rq st).rooms = st.rooms) := by
  refine ⟨?_, ?_, ?_⟩
  · intro hguard
    cases hrc : ctx.currentRoomCode with
    | none => simp [approveScreenShare, rejectScreenShare, hrc]
    | some rc =>
      cases hcu : ctx.currentUser with
      | none => simp [approveScreenShare, rejectScreenShare, hrc, hcu]
      | some u =>
        have hio : u.isOwner = false := by
          rcases hguard with h1 | h2 | h3
          · rw [hrc] at h1
            exact absurd h1 (by simp)
          · rw [hcu] at h2
            exact absurd h2 (by simp)
          · exact h3 u hcu
        simp [approveScreenShare, rejectScreenShare, hrc, hcu, hio]
  · intro hr
    cases hrc : ctx.currentRoomCode with
    | none => simp [approveScreenShare, rejectScreenShare, hrc]
    | some rc =>
      cases hcu : ctx.currentUser with
      | none => simp [approveScreenShare, rejectScreenShare, hrc, hcu]
      | some u =>
        simp [approveScreenShare, rejectScreenShare, hrc, hcu, hr]
  · intro roomCode u req room hrc hcu hio hreq hroom
    refine ⟨?_, ?_, ?_, ?_⟩ <;>
      simp [approveScreenShare, rejectScreenShare, hrc, hcu, hio, hreq, hroom,
        AssocMap.mget_mdel, AssocMap.mget_mset]

/-- Witness for the amended C6: the owner of room R2BBBB approves the
pending request of their own room's participant, which consumes it. -/
theorem owner_gated_consume_witness :
    AssocMap.mget (approveScreenShare
        { socketId := 2, currentRoomCode := some "R2BBBB",
          currentUser := some { id := 2, userName := "olga", isOwner := true } }
        5 2000 twoRoomSt).screenShareRequests 5 = none :=
  ((owner_gated_consume
      { socketId := 2, currentRoomCode := some "R2BBBB",
        currentUser := some { id := 2, userName := "olga", isOwner := true } }
      5 2000 twoRoomSt).2.2 "R2BBBB"
    { id := 2, userName := "olga", isOwner := true }
    { requesterName := "quinn", requesterSocketId := 5, roomCode := "R2BBBB",
      timestamp := 1000 }
    { owner := 2, screenSharing := none } rfl rfl rfl rfl rfl).1

end ScreenShare

namespace Playlist

/-- Counterexample to C5 as stated: with two room members, bob uploads a
track, alice uploads a track, bob confirm-deletes his list (leaving an empty
list under his key), and alice uploads again.  The final upload broadcasts
uploadProgress 100 because the handler counts playlist keys, while the
spec's formula — participants owning at least one track over membership —
gives 50. -/
theorem upload_progress_counterexample :
    uploadPlaylistMusic "bob" trackB0 2 [] = ([("bob", [trackB0])], 50)
    ∧ uploadPlaylistMusic "alice" trackA1 2 [("bob", [trackB0])]
        = ([("alice", [trackA1]), ("bob", [trackB0])], 100)
    ∧ confirmDeleteMusic "bob" 2 [("alice", [trackA1]), ("bob", [trackB0])]
        = some ([("bob", []), ("alice", [trackA1])], 50)
    ∧ (uploadPlaylistMusic "alice" trackA2 2
        [("bob", []), ("alice", [trackA1])]).2 = 100
    ∧ specUploadProgress (uploadPlaylistMusic "alice" trackA2 2
        [("bob", []), ("alice", [trackA1])]).1 2 = 50 := by
  decide

/-- Claim C5 (amended): `confirm-delete-music` broadcasts exactly the spec's
percentage (participants with at least one track over membership, times 100,
rounded); `upload-playlist-music` broadcasts the percentage of participants
holding a playlist key — empty lists included — which coincides with the
spec's formula whenever no participant's list is empty. -/
theorem progress_formula (user : String) (tr : Track) (n : Nat)
    (pl : PlaylistMap) :
    (uploadPlaylistMusic user tr n pl).2
      = roundPct (uploadPlaylistMusic user tr n pl).1.length n
    ∧ ((∀ p ∈ pl, p.2 ≠ []) →
        (uploadPlaylistMusic user tr n pl).2
          = specUploadProgress (uploadPlaylistMusic user tr n pl).1 n)
    ∧ (∀ pl2 prog, confirmDeleteMusic user n pl = some (pl2, prog) →
        prog = specUploadProgress pl2 n) := by
  refine ⟨rfl, ?_, ?_⟩
  · intro hne
    have hall : ∀ p ∈ (uploadPlaylistMusic user tr n pl).1,
        decide (0 < p.2.length) = true := by
      intro p hp
      simp only [uploadPlaylistMusic] at hp
      rcases AssocMap.mem_mset.mp hp with rfl | ⟨hmem, _⟩
      · simp
      · have := hne p hmem
        simp [List.length_pos, this]
    have hfil : (uploadPlaylistMusic user tr n pl).1.filter
        (fun p => 0 < p.2.length) = (uploadPlaylistMusic user tr n pl).1 :=
      List.filter_eq_self.mpr hall
    simp only [specUploadProgress, hfil]
    exact rfl
  · intro pl2 prog h
    unfold confirmDeleteMusic at h
    cases hm : AssocMap.mget pl user with
    | none =>
      rw [hm] at h
      exact Option.noConfusion h
    | some l =>
      rw [hm] at h
      injection h with h2
      rw [Prod.mk.injEq] at h2
      obtain ⟨rfl, rfl⟩ := h2
      rfl

/-- Witness for the amended C5: when every playlist list is non-empty, the
upload broadcast matches the spec's formula. -/
theorem progress_formula_witness :
    (uploadPlaylistMusic "alice" trackA1 2 [("bob", [trackB0])]).2
      = specUploadProgress
          (uploadPlaylistMusic "alice" trackA1 2 [("bob", [trackB0])]).1 2 :=
  ((progress_formula "alice" trackA1 2 [("bob", [trackB0])]).2.1) (by decide)

end Playlist

namespace Calls

theorem mdel_comm (a b : Nat) (st : CallIndex) :
    AssocMap.mdel a (AssocMap.mdel b st) = AssocMap.mdel b (AssocMap.mdel a st) := by
  simp only [AssocMap.mdel, List.filter_filter]
  exact List.filter_congr (fun x _ => Bool.and_comm _ _)

theorem paired_nil : Paired [] :=
  fun p hp => absurd hp (List.not_mem_nil p)

theorem paired_mdel_call (st : CallIndex) (r : CallRec) (hP : Paired st)
    (hc : AssocMap.mget st r.callerSocketId = some r)
    (ht : AssocMap.mget st r.targetSocketId = some r) :
    Paired (AssocMap.mdel r.targetSocketId (AssocMap.mdel r.callerSocketId st)) := by
  intro p hp
  obtain ⟨hp1, hpt⟩ := AssocMap.mem_mdel.mp hp
  obtain ⟨hp0, hpc⟩ := AssocMap.mem_mdel.mp hp1
  obtain ⟨hside, hne, hcp, htp⟩ := hP p hp0
  have hpr : p.2 ≠ r := by
    intro he
    rcases hside with hs | hs
    · exact hpc (by rw [← hs, he])
    · exact hpt (by rw [← hs, he])
  have hcc : p.2.callerSocketId ≠ r.callerSocketId := by
    intro he
    rw [he, hc] at hcp
    exact hpr (Option.some.inj hcp).symm
  have hct : p.2.callerSocketId ≠ r.targetSocketId := by
    intro he
    rw [he, ht] at hcp
    exact hpr (Option.some.inj hcp).symm
  have htc : p.2.targetSocketId ≠ r.callerSocketId := by
    intro he
    rw [he, hc] at htp
    exact hpr (Option.some.inj htp).symm
  have htt : p.2.targetSocketId ≠ r.targetSocketId := by
    intro he
    rw [he, ht] at htp
    exact hpr (Option.some.inj htp).symm
  refine ⟨hside, hne, ?_, ?_⟩
  · rw [AssocMap.mget_mdel, if_neg hct, AssocMap.mget_mdel, if_neg hcc, hcp]
  · rw [AssocMap.mget_mdel, if_neg htt, AssocMap.mget_mdel, if_neg htc, htp]

theorem paired_step (st : CallIndex) (e : CallEvent) (hP : Paired st)
    (hok : okEvent st e = true) : Paired (step st e) := by
  cases e with
  | startCall a b ty rc =>
    rw [okEvent, Bool.and_eq_true, Bool.and_eq_true] at hok
    obtain ⟨⟨ha, hb⟩, hab⟩ := hok
    rw [Option.isNone_iff_eq_none] at ha hb
    have hab2 : a ≠ b := by simpa using hab
    intro p hp
    simp only [step] at hp ⊢
    rcases AssocMap.mem_mset.mp hp with rfl | ⟨hp1, hpb⟩
    · refine ⟨Or.inr rfl, hab2, ?_, ?_⟩
      · rw [AssocMap.mget_mset, if_neg hab2, AssocMap.mget_mset, if_pos rfl]
      · rw [AssocMap.mget_mset, if_pos rfl]
    · rcases AssocMap.mem_mset.mp hp1 with rfl | ⟨hp0, hpa⟩
      · refine ⟨Or.inl rfl, hab2, ?_, ?_⟩
        · rw [AssocMap.mget_mset, if_neg hab2, AssocMap.mget_mset, if_pos rfl]
        · rw [AssocMap.mget_mset, if_pos rfl]
      · obtain ⟨hside, hne, hcp, htp⟩ := hP p hp0
        have hca : p.2.callerSocketId ≠ a := by
          intro he
          rw [he, ha] at hcp
          exact Option.noConfusion hcp
        have hcb : p.2.callerSocketId ≠ b := by
          intro he
          rw [he, hb] at hcp
          exact Option.noConfusion hcp
        have hta : p.2.targetSocketId ≠ a := by
          intro he
          rw [he, ha] at htp
          exact Option.noConfusion htp
        have htb : p.2.targetSocketId ≠ b := by
          intro he
          rw [he, hb] at htp
          exact Option.noConfusion htp
        refine ⟨hside, hne, ?_, ?_⟩
        · rw [AssocMap.mget_mset, if_neg hcb, AssocMap.mget_mset, if_neg hca, hcp]
        · rw [AssocMap.mget_mset, if_neg htb, AssocMap.mget_mset, if_neg hta, htp]
  | endCall actor tgt =>
    rw [okEvent] at hok
    obtain ⟨r, hr⟩ := Option.isSome_iff_exists.mp hok
    obtain ⟨hside, hne, hc, ht⟩ := hP (actor, r) (AssocMap.mem_of_mget_eq_some hr)
    simpa only [step, hr] using paired_mdel_call st r hP hc ht
  | rejectCall actor x =>
    cases hr : AssocMap.mget st actor with
    | none => simpa only [step, hr] using hP
    | some r =>
      obtain ⟨hside, hne, hc, ht⟩ := hP (actor, r) (AssocMap.mem_of_mget_eq_some hr)
      simpa only [step, hr] using paired_mdel_call st r hP hc ht
  | disconnect actor =>
    cases hr : AssocMap.mget st actor with
    | none => simpa only [step, hr] using hP
    | some r =>
      obtain ⟨hside, hne, hc, ht⟩ := hP (actor, r) (AssocMap.mem_of_mget_eq_some hr)
      simp only [step, hr]
      by_cases hca : r.callerSocketId = actor
      · rw [if_pos hca, ← hca, mdel_comm]
        exact paired_mdel_call st r hP hc ht
      · have hta : r.targetSocketId = actor := by
          rcases hside with hs | hs
          · exact absurd hs hca
          · exact hs
        rw [if_neg hca, ← hta]
        exact paired_mdel_call st r hP hc ht

theorem paired_run_aux (tr : List CallEvent) (st : CallIndex) (hP : Paired st)
    (hok : okFrom st tr = true) : Paired (tr.foldl step st) := by
  induction tr generalizing st with
  | nil => simpa using hP
  | cons e es ih =>
    rw [okFrom, Bool.and_eq_true] at hok
    exact ih (step st e) (paired_step st e hP hok.1) hok.2

/-- Claim C2 (amended): for every state reachable by traces in which
`start-call` only fires between two distinct parties neither of which holds a
call record and `end-call` only fires from a socket holding a record, the
`activeCalls` index is fully paired (each entry is keyed by one of its
record's endpoints and both endpoints map to that same record — no half-call
state), at most one call record references a given connection identity, and
`end-call` and `reject-call` remove the record's entries under both the
caller's and the callee's identities in the same step.  Without the trace
restriction the fallback branch of `end-call` can strand a half-call entry
(see the counterexample). -/
theorem call_index_paired (tr : List CallEvent) (hok : okFrom [] tr = true) :
    Paired (run tr)
    ∧ (∀ p ∈ run tr, ∀ q ∈ run tr, ∀ id : Nat,
        (id = p.2.callerSocketId ∨ id = p.2.targetSocketId) →
        (id = q.2.callerSocketId ∨ id = q.2.targetSocketId) → p.2 = q.2)
    ∧ (∀ actor r, AssocMap.mget (run tr) actor = some r →
        AssocMap.mget (step (run tr) (.endCall actor none))
            r.callerSocketId = none
        ∧ AssocMap.mget (step (run tr) (.endCall actor none))
            r.targetSocketId = none
        ∧ AssocMap.mget (step (run tr) (.rejectCall actor r.callerSocketId))
            r.callerSocketId = none
        ∧ AssocMap.mget (step (run tr) (.rejectCall actor r.callerSocketId))
            r.targetSocketId = none) := by
  have hP : Paired (run tr) := paired_run_aux tr [] paired_nil hok
  refine ⟨hP, ?_, ?_⟩
  · intro p hp q hq id hpid hqid
    obtain ⟨_, _, hcp, htp⟩ := hP p hp
    obtain ⟨_, _, hcq, htq⟩ := hP q hq
    have h1 : AssocMap.mget (run tr) id = some p.2 := by
      rcases hpid with rfl | rfl
      exacts [hcp, htp]
    have h2 : AssocMap.mget (run tr) id = some q.2 := by
      rcases hqid with rfl | rfl
      exacts [hcq, htq]
    exact Option.some.inj (h1.symm.trans h2)
  · intro actor r hr
    have he : step (run tr) (.endCall actor none)
        = AssocMap.mdel r.targetSocketId (AssocMap.mdel r.callerSocketId (run tr)) := by
      simp [step, hr]
    have hj : step (run tr) (.rejectCall actor r.callerSocketId)
        = AssocMap.mdel r.targetSocketId (AssocMap.mdel r.callerSocketId (run tr)) := by
      simp [step, hr]
    refine ⟨?_, ?_, ?_, ?_⟩ <;> first
      | (rw [he]; simp [AssocMap.mget_mdel])
      | (rw [hj]; simp [AssocMap.mget_mdel])

/-- Witness for the amended C2: a single well-formed `start-call` trace
yields a fully paired index. -/
theorem call_index_paired_witness :
    Paired (run [.startCall 1 2 "video" "ROOM01"]) :=
  (call_index_paired [.startCall 1 2 "video" "ROOM01"] (by decide)).1

/-- Counterexample to C2 as stated: after a ringing call between sockets 1
and 2, an `end-call` from uninvolved socket 3 naming socket 1 takes the
fallback branch and deletes the entries of sockets 3 and 1; the callee entry
of socket 2 survives while its counterpart entry of socket 1 is gone — a
dangling half-call in the index at a reachable state. -/
theorem end_call_half_call_counterexample :
    AssocMap.mget (run strandTrace) 2
        = some (CallRec.mk 1 2 "video" "ROOM01" "ringing")
    ∧ AssocMap.mget (run strandTrace) 1 = none := by
  decide

end Calls
